import Mathlib

/-!
Shallow embedding of the mrgnd-perpetuals core: the vAMM pricing engine
(`contracts/margined_vamm/src/handle.rs`) and the margin-engine position
lifecycle (`contracts/margined_engine/src/handle.rs`, `contract.rs`,
`state.rs`), together with theorems checking the specification claims.

Machine integers: Rust `Uint128` values are embedded as `Nat`; every
`checked_*` operation returns `Option Nat`, failing exactly when the Rust
operation would return `None` (overflow past `u128::MAX`, subtraction
underflow, division by zero).  A Rust `?` chain becomes a `match` chain on
`Option`; a Rust panic (`unwrap` on `None`) is also embedded as a failure,
since both abort the enclosing transaction.
-/

set_option linter.unusedVariables false

/-- Rust `u128::MAX + 1`: `checked_mul`/`checked_add` fail at this bound. -/
def UINT128_BOUND : Nat := 2 ^ 128

/-- `Uint128::checked_add`. -/
def checked_add (a b : Nat) : Option Nat :=
  if a + b < UINT128_BOUND then some (a + b) else none

/-- `Uint128::checked_sub`. -/
def checked_sub (a b : Nat) : Option Nat :=
  if b ≤ a then some (a - b) else none

/-- `Uint128::checked_mul`. -/
def checked_mul (a b : Nat) : Option Nat :=
  if a * b < UINT128_BOUND then some (a * b) else none

/-- `Uint128::checked_div`. -/
def checked_div (a b : Nat) : Option Nat :=
  if b = 0 then none else some (a / b)

/-- `margined_perp::margined_vamm::Direction`. -/
inductive Direction
  | AddToAmm
  | RemoveFromAmm
deriving DecidableEq, Repr

/-- vAMM `State` (`margined_vamm`): the two reserve balances read and
written by the pricing and reserve-update functions. -/
structure VammState where
  quote_asset_reserve : Nat
  base_asset_reserve : Nat
deriving DecidableEq, Repr

/-- vAMM `Config`, restricted to the `decimals` field, the only
configuration field the pricing functions read. -/
structure VammConfig where
  decimals : Nat
deriving DecidableEq, Repr

/-- `modulo` from `margined_vamm/src/handle.rs`: the remainder of
`(a * PRECISION) / b` where the scale `PRECISION = 1_000_000_000` (9
decimal places) is hardcoded, independent of `config.decimals`.  The
source computes `a_decimals - b * (a_decimals / b)` after an
`unwrap`-ed `checked_mul` (panic on overflow, embedded as `none`); the
`/` on `b = 0` would also panic. -/
def modulo (a b : Nat) : Option Nat :=
  match checked_mul a 1000000000 with
  | none => none
  | some a_decimals =>
    if b = 0 then none
    else some (a_decimals - b * (a_decimals / b))

/-- `get_input_price_with_reserves` (`margined_vamm/src/handle.rs:101`).
Note: the source line `if quote_asset_amount == Uint128::zero() {
Uint128::zero(); }` is an expression statement with no effect (there is
no `return`), so execution always falls through to the full computation
below — the embedding therefore has no zero-amount short-circuit. -/
def get_input_price_with_reserves (state : VammState) (config : VammConfig)
    (direction : Direction) (quote_asset_amount : Nat) : Option Nat :=
  match checked_mul state.quote_asset_reserve state.base_asset_reserve with
  | none => none
  | some prod =>
    match checked_div prod config.decimals with
    | none => none
    | some invariant_k =>
      match (match direction with
             | Direction.AddToAmm =>
                 checked_add state.quote_asset_reserve quote_asset_amount
             | Direction.RemoveFromAmm =>
                 checked_sub state.quote_asset_reserve quote_asset_amount) with
      | none => none
      | some quote_asset_after =>
        match checked_mul invariant_k config.decimals with
        | none => none
        | some scaled =>
          match checked_div scaled quote_asset_after with
          | none => none
          | some base_asset_after =>
            let base_asset_bought :=
              if base_asset_after > state.base_asset_reserve then
                base_asset_after - state.base_asset_reserve
              else
                state.base_asset_reserve - base_asset_after
            match modulo invariant_k quote_asset_after with
            | none => none
            | some remainder =>
              if remainder ≠ 0 then
                match direction with
                | Direction.AddToAmm => checked_sub base_asset_bought 1
                | Direction.RemoveFromAmm => checked_add base_asset_bought 1
              else
                some base_asset_bought

/-- `get_output_price_with_reserves` (`margined_vamm/src/handle.rs:153`).
Mirror of the input pricer: the base side moves by the given amount and
the quote side is solved from the invariant.  The zero-amount check in
the source is the same no-effect statement as in the input pricer. -/
def get_output_price_with_reserves (state : VammState) (config : VammConfig)
    (direction : Direction) (base_asset_amount : Nat) : Option Nat :=
  match checked_mul state.quote_asset_reserve state.base_asset_reserve with
  | none => none
  | some prod =>
    match checked_div prod config.decimals with
    | none => none
    | some invariant_k =>
      match (match direction with
             | Direction.AddToAmm =>
                 checked_add state.base_asset_reserve base_asset_amount
             | Direction.RemoveFromAmm =>
                 checked_sub state.base_asset_reserve base_asset_amount) with
      | none => none
      | some base_asset_after =>
        match checked_mul invariant_k config.decimals with
        | none => none
        | some scaled =>
          match checked_div scaled base_asset_after with
          | none => none
          | some quote_asset_after =>
            let quote_asset_sold :=
              if quote_asset_after > state.quote_asset_reserve then
                quote_asset_after - state.quote_asset_reserve
              else
                state.quote_asset_reserve - quote_asset_after
            match modulo invariant_k base_asset_after with
            | none => none
            | some remainder =>
              if remainder ≠ 0 then
                match direction with
                | Direction.AddToAmm => checked_sub quote_asset_sold 1
                | Direction.RemoveFromAmm => checked_add quote_asset_sold 1
              else
                some quote_asset_sold

/-- `update_reserve` (`margined_vamm/src/handle.rs:201`): directional
application of a computed trade to the reserve pair. -/
def update_reserve (state : VammState) (direction : Direction)
    (quote_asset_amount base_asset_amount : Nat) : Option VammState :=
  match direction with
  | Direction.AddToAmm =>
    match checked_add state.quote_asset_reserve quote_asset_amount with
    | none => none
    | some q =>
      match checked_sub state.base_asset_reserve base_asset_amount with
      | none => none
      | some b => some { quote_asset_reserve := q, base_asset_reserve := b }
  | Direction.RemoveFromAmm =>
    match checked_add state.base_asset_reserve base_asset_amount with
    | none => none
    | some b =>
      match checked_sub state.quote_asset_reserve quote_asset_amount with
      | none => none
      | some q => some { quote_asset_reserve := q, base_asset_reserve := b }

/-- `swap_input` (`margined_vamm/src/handle.rs:44`): price the trade from
the quote amount, then update the reserves in the trade's own direction.
Returns the updated state together with the `output` attribute
(`base_asset_amount`) emitted in the response. -/
def swap_input (state : VammState) (config : VammConfig)
    (direction : Direction) (quote_asset_amount : Nat) : Option (VammState × Nat) :=
  match get_input_price_with_reserves state config direction quote_asset_amount with
  | none => none
  | some base_asset_amount =>
    match update_reserve state direction quote_asset_amount base_asset_amount with
    | none => none
    | some s => some (s, base_asset_amount)

/-- `swap_output` (`margined_vamm/src/handle.rs:69`): price the trade from
the base amount, then update the reserves in the *flipped* direction
(the source reassigns `update_direction` to the opposite variant before
calling `update_reserve`).  Returns the updated state together with the
`output` attribute (`quote_asset_amount`). -/
def swap_output (state : VammState) (config : VammConfig)
    (direction : Direction) (base_asset_amount : Nat) : Option (VammState × Nat) :=
  match get_output_price_with_reserves state config direction base_asset_amount with
  | none => none
  | some quote_asset_amount =>
    let update_direction :=
      match direction with
      | Direction.AddToAmm => Direction.RemoveFromAmm
      | Direction.RemoveFromAmm => Direction.AddToAmm
    match update_reserve state update_direction quote_asset_amount base_asset_amount with
    | none => none
    | some s => some (s, quote_asset_amount)

/-! ## Margin engine (`contracts/margined_engine`) -/

/-- `margined_perp::margined_engine::Side`.  Modelled from the spec: the
`margined_perp` package is not in the provided sources; §3/§4.4 give the
trader-facing BUY/SELL side enum. -/
inductive Side
  | BUY
  | SELL
deriving DecidableEq, Repr

/-- `side_to_direction` (`margined_engine/src/utils.rs`, not in the
provided sources).  Modelled from the spec: §4.4 "BUY → AddToAmm,
SELL → RemoveFromAmm". -/
def side_to_direction : Side → Direction
  | Side.BUY => Direction.AddToAmm
  | Side.SELL => Direction.RemoveFromAmm

/-- `direction_to_side` (`margined_engine/src/utils.rs`, not in the
provided sources).  Modelled from the spec: inverse of the §4.4 side
mapping. -/
def direction_to_side : Direction → Side
  | Direction.AddToAmm => Side.BUY
  | Direction.RemoveFromAmm => Side.SELL

/-- `switch_direction` (`margined_engine/src/utils.rs`, not in the
provided sources).  Modelled from the spec: §4.4 `close_position` swaps
"in the *opposite* of the position's stored direction". -/
def switch_direction : Direction → Direction
  | Direction.AddToAmm => Direction.RemoveFromAmm
  | Direction.RemoveFromAmm => Direction.AddToAmm

/-- Engine `Config`.  `state.rs` declares `owner`, `decimals` and the
margin-ratio fields; `contract.rs` additionally constructs the config
with `eligible_collateral`, which `execute_transfer_from` reads.
Addresses (`Addr`) are embedded as `String`. -/
structure EngineConfig where
  owner : String
  eligible_collateral : String
  decimals : Nat
  initial_margin_ratio : Nat
  maintenance_margin_ratio : Nat
  liquidation_fee : Nat
deriving DecidableEq, Repr

/-- `Position` (`margined_engine/src/state.rs`), plus the `direction`
field that `handle.rs` reads and writes on every position (the provided
`state.rs` omits it; §3 of the spec lists it).  `timestamp` embeds the
block time as a `Nat`. -/
structure Position where
  vamm : String
  trader : String
  direction : Direction
  size : Nat
  margin : Nat
  notional : Nat
  premium_fraction : Nat
  liquidity_history_index : Nat
  timestamp : Nat
deriving DecidableEq, Repr

/-- `Position::default()`: all-zero fields.  The default `direction` is
never observed: `get_position` overwrites it on the fresh-position path
and discards the default entirely on the stored-position path. -/
def Position.default0 : Position :=
  { vamm := "", trader := "", direction := Direction.AddToAmm,
    size := 0, margin := 0, notional := 0, premium_fraction := 0,
    liquidity_history_index := 0, timestamp := 0 }

/-- `Swap` (imported by `handle.rs` from `state.rs`; the struct itself is
not in the provided `state.rs`).  Modelled from the spec: §3
`PendingSwap` — market identity, trader identity, side, quote asset
amount posted as margin, leverage, computed open notional — with the
field names used at its construction site in `open_position`. -/
structure Swap where
  vamm : String
  trader : String
  side : Side
  quote_asset_amount : Nat
  leverage : Nat
  open_notional : Nat
deriving DecidableEq, Repr

/-- Engine storage: the position ledger and the pending-swap slot.
Positions are kept in an association list keyed by (vamm, trader),
newest entry first — an equivalent substitute for the source's
sha3-hashed bucket key (spec §9).  `tmpSwap` is the single
contract-instance-wide `Swap` slot (spec §3), modelled from the spec
because `store_tmp_swap`/`read_tmp_swap`/`remove_tmp_swap` are not in
the provided `state.rs`. -/
structure EngineState where
  positions : List ((String × String) × Position)
  tmpSwap : Option Swap
deriving DecidableEq, Repr

/-- `read_position` (`margined_engine/src/state.rs:78`): look up the
position stored under the (vamm, trader) key; `None` when absent. -/
def read_position (st : EngineState) (vamm trader : String) : Option Position :=
  (st.positions.find? (fun kv => kv.1 = (vamm, trader))).map Prod.snd

/-- `store_position` (`margined_engine/src/state.rs:64`): save the
position under the key derived from its own `vamm`/`trader` fields. -/
def store_position (st : EngineState) (p : Position) : EngineState :=
  { st with positions := ((p.vamm, p.trader), p) :: st.positions }

/-- `read_tmp_swap`.  Modelled from the spec: §3 single `PendingSwap`
slot; `None` when empty. -/
def read_tmp_swap (st : EngineState) : Option Swap :=
  st.tmpSwap

/-- `store_tmp_swap`.  Modelled from the spec: overwrite the single
`PendingSwap` slot. -/
def store_tmp_swap (st : EngineState) (s : Swap) : EngineState :=
  { st with tmpSwap := some s }

/-- `remove_tmp_swap`.  Modelled from the spec: clear the single
`PendingSwap` slot. -/
def remove_tmp_swap (st : EngineState) : EngineState :=
  { st with tmpSwap := none }

/-- `SWAP_INCREASE_REPLY_ID` (`margined_engine/src/contract.rs:26`). -/
def SWAP_INCREASE_REPLY_ID : Nat := 1
/-- `SWAP_DECREASE_REPLY_ID` (`margined_engine/src/contract.rs:27`). -/
def SWAP_DECREASE_REPLY_ID : Nat := 2
/-- `SWAP_REVERSE_REPLY_ID` (`margined_engine/src/contract.rs:28`). -/
def SWAP_REVERSE_REPLY_ID : Nat := 3
/-- `CLOSE_POSITION_REPLY_ID` (`margined_engine/src/contract.rs:29`). -/
def CLOSE_POSITION_REPLY_ID : Nat := 4

/-- Sub-messages the engine issues: the two vAMM swap calls (tagged with
a reply id and `ReplyOn::Always`) and the cw20 `TransferFrom` collateral
call (`execute_transfer_from`, id 0, `ReplyOn::Never`). -/
inductive EngineMsg
  | swapInput (vamm : String) (direction : Direction)
      (quote_asset_amount : Nat) (i : Nat)
  | swapOutput (vamm : String) (direction : Direction)
      (base_asset_amount : Nat) (i : Nat)
  | transferFrom (token owner recipient : String) (amount : Nat) (i : Nat)
deriving DecidableEq, Repr

/-- The sub-message id (the continuation id for the swap calls). -/
def EngineMsg.replyId : EngineMsg → Nat
  | EngineMsg.swapInput _ _ _ i => i
  | EngineMsg.swapOutput _ _ _ i => i
  | EngineMsg.transferFrom _ _ _ _ i => i

/-- `get_position` (`margined_engine/src/handle.rs:438`): read the stored
position; when absent, synthesize a default position whose `vamm`,
`trader`, `direction` (derived from the requested side) and `timestamp`
(block time) are filled in. -/
def get_position (blockTime : Nat) (st : EngineState) (vamm trader : String)
    (side : Side) : Position :=
  match read_position st vamm trader with
  | none =>
    { Position.default0 with
        vamm := vamm, trader := trader,
        direction := side_to_direction side, timestamp := blockTime }
  | some p => p

/-- `open_position` (`margined_engine/src/handle.rs:45`).  Address
validation and `require_vamm` are identity/always-pass here (spec §1
scopes them out; `utils.rs` is not in the provided sources).  Returns
the post-call storage and the single swap sub-message added to the
response.  Note that the reduced `position.notional` computed on the
decrease path is assigned to the local copy only — the source never
calls `store_position` here — and that `store_tmp_swap` runs on every
path. -/
def open_position (cfg : EngineConfig) (st : EngineState) (blockTime : Nat)
    (vamm trader : String) (side : Side)
    (quote_asset_amount leverage : Nat) :
    Except String (EngineState × EngineMsg) :=
  match checked_mul quote_asset_amount leverage with
  | none => Except.error "overflow"
  | some scaled =>
    match checked_div scaled cfg.decimals with
    | none => Except.error "divide by zero"
    | some open_notional =>
      let position := get_position blockTime st vamm trader side
      -- is_increase starts true and is cleared unless direction and side agree
      if (position.direction = Direction.AddToAmm ∧ side = Side.BUY) ∨
         (position.direction = Direction.RemoveFromAmm ∧ side = Side.SELL) then
        let msg := EngineMsg.swapInput vamm (side_to_direction side)
          open_notional SWAP_INCREASE_REPLY_ID
        Except.ok
          (store_tmp_swap st
            { vamm := vamm, trader := trader, side := side,
              quote_asset_amount := quote_asset_amount,
              leverage := leverage, open_notional := open_notional }, msg)
      else
        if position.notional > open_notional then
          let msg := EngineMsg.swapInput vamm (side_to_direction side)
            open_notional SWAP_DECREASE_REPLY_ID
          match checked_sub position.notional open_notional with
          | none => Except.error "underflow"
          | some _reduced_notional =>
            -- the reduction lives only in the local copy; never persisted
            Except.ok
              (store_tmp_swap st
                { vamm := vamm, trader := trader, side := side,
                  quote_asset_amount := quote_asset_amount,
                  leverage := leverage, open_notional := open_notional }, msg)
        else
          let msg := EngineMsg.swapOutput vamm
            (side_to_direction (direction_to_side position.direction))
            position.size SWAP_REVERSE_REPLY_ID
          Except.ok
            (store_tmp_swap st
              { vamm := vamm, trader := trader, side := side,
                quote_asset_amount := quote_asset_amount,
                leverage := leverage, open_notional := open_notional }, msg)

/-- `close_position` (`margined_engine/src/handle.rs:140`): `unwrap` the
stored position (a panic — embedded as an error — when absent), issue a
`SwapOutput` for the full size in the switched direction.  The
`tmp_store_swap` call in the source is commented out, so storage is
returned unchanged. -/
def close_position (st : EngineState) (vamm trader : String) (i : Nat) :
    Except String (EngineState × EngineMsg) :=
  match read_position st vamm trader with
  | none => Except.error "panicked: unwrap on a None value"
  | some position =>
    let direction := switch_direction position.direction
    let msg := EngineMsg.swapOutput vamm direction position.size i
    Except.ok (st, msg)

/-- `finalize_close_position` (`margined_engine/src/handle.rs:183`):
fails when no temporary swap is stored; otherwise the position-ledger
mutation is commented out in the source and only `remove_tmp_swap`
runs. -/
def finalize_close_position (st : EngineState) : Except String EngineState :=
  match read_tmp_swap st with
  | none => Except.error "no temporary swap stored"
  | some _ => Except.ok (remove_tmp_swap st)

/-- `increase_position_reply` (`margined_engine/src/handle.rs:210`):
read the pending swap (error when absent), re-derive the position, add
the swap output to `size`, the posted `quote_asset_amount` to `margin`,
the `open_notional` to `notional`, set `direction` from the side, store
the position, and issue a cw20 `TransferFrom` of the *updated*
`position.margin` from the trader to the contract.  The source does not
call `remove_tmp_swap` on this path. -/
def increase_position_reply (cfg : EngineConfig) (st : EngineState)
    (blockTime : Nat) (contractAddr : String) (output : Nat) :
    Except String (EngineState × EngineMsg) :=
  match read_tmp_swap st with
  | none => Except.error "no temporary position"
  | some swap =>
    let position := get_position blockTime st swap.vamm swap.trader swap.side
    match checked_add position.size output with
    | none => Except.error "overflow"
    | some size =>
      match checked_add position.margin swap.quote_asset_amount with
      | none => Except.error "overflow"
      | some margin =>
        match checked_add position.notional swap.open_notional with
        | none => Except.error "overflow"
        | some notional =>
          let position :=
            { position with
                size := size, margin := margin, notional := notional,
                direction := side_to_direction swap.side }
          let msg := EngineMsg.transferFrom cfg.eligible_collateral
            swap.trader contractAddr position.margin 0
          Except.ok (store_position st position, msg)

/-- `decrease_position` (`margined_engine/src/handle.rs:250`): the ledger
mutation is commented out in the source; only the pending-swap check and
`remove_tmp_swap` remain. -/
def decrease_position (st : EngineState) : Except String EngineState :=
  match read_tmp_swap st with
  | none => Except.error "no temporary position"
  | some _ => Except.ok (remove_tmp_swap st)

/-- `reverse_position` (`margined_engine/src/handle.rs:276`): everything
after the pending-swap check is commented out in the source; the state
is returned unchanged (the slot is not even cleared). -/
def reverse_position (st : EngineState) : Except String EngineState :=
  match read_tmp_swap st with
  | none => Except.error "no temporary position"
  | some _ => Except.ok st

/-! ## Inversion lemmas for the checked arithmetic -/

theorem checked_add_some {a b c : Nat} (h : checked_add a b = some c) :
    c = a + b ∧ a + b < UINT128_BOUND := by
  unfold checked_add at h; split at h <;> simp_all

theorem checked_sub_some {a b c : Nat} (h : checked_sub a b = some c) :
    c = a - b ∧ b ≤ a := by
  unfold checked_sub at h; split at h <;> simp_all

theorem checked_mul_some {a b c : Nat} (h : checked_mul a b = some c) :
    c = a * b ∧ a * b < UINT128_BOUND := by
  unfold checked_mul at h; split at h <;> simp_all

theorem checked_div_some {a b c : Nat} (h : checked_div a b = some c) :
    c = a / b ∧ b ≠ 0 := by
  unfold checked_div at h; split at h <;> simp_all

theorem modulo_some {a b r : Nat} (h : modulo a b = some r) :
    r = (a * 1000000000) % b ∧ b ≠ 0 ∧ a * 1000000000 < UINT128_BOUND := by
  unfold modulo at h
  split at h
  · exact Option.noConfusion h
  rename_i ad had
  obtain ⟨rfl, hbound⟩ := checked_mul_some had
  split at h
  · exact Option.noConfusion h
  rename_i hb
  injection h with h
  have hdm := Nat.div_add_mod (a * 1000000000) b
  refine ⟨by omega, hb, hbound⟩

/-! ## Arithmetic helper lemmas for the invariant proof -/

theorem le_div_of_mul_le {K D x : Nat} (hD : 0 < D) (h : K * D ≤ x) :
    K ≤ x / D :=
  (Nat.le_div_iff_mul_le hD).2 h

theorem bound_exact {KD v A m : Nat} (hex : KD % v = 0) (hA : A = KD / v)
    (hm : A ≤ m) : KD ≤ v * m := by
  have h1 : v * A = KD := by
    rw [hA]; exact Nat.mul_div_cancel' (Nat.dvd_of_mod_eq_zero hex)
  calc KD = v * A := h1.symm
    _ ≤ v * m := Nat.mul_le_mul (Nat.le_refl v) hm

theorem bound_inexact {KD v A m : Nat} (hv : 0 < v) (hA : A = KD / v)
    (hm : A + 1 ≤ m) : KD ≤ v * m := by
  have h1 : v * (KD / v) + KD % v = KD := Nat.div_add_mod KD v
  have h2 : KD % v < v := Nat.mod_lt _ hv
  have h3 : v * (A + 1) ≤ v * m := Nat.mul_le_mul (Nat.le_refl v) hm
  have h4 : v * (A + 1) = v * A + v := by ring
  subst hA; omega

theorem after_le (P D v A x y : Nat) (hx : 0 < x) (hP : P = x * y)
    (hA : A = P / D * D / v) (hv : x ≤ v) : A ≤ y := by
  have h1 : A * v ≤ P / D * D := by rw [hA]; exact Nat.div_mul_le_self _ _
  have h2 : P / D * D ≤ P := Nat.div_mul_le_self _ _
  have h3 : A * x ≤ A * v := Nat.mul_le_mul (Nat.le_refl A) hv
  have h4 : x * A ≤ x * y := by
    calc x * A = A * x := Nat.mul_comm _ _
      _ ≤ A * v := h3
      _ ≤ P := le_trans h1 h2
      _ = x * y := hP
  exact Nat.le_of_mul_le_mul_left h4 hx

/-! ## Invariant non-decrease, per operation (decimals = 10^9) -/

theorem swap_input_K_le (q b amt out : Nat) (dir : Direction) (s' : VammState)
    (hq : q ≠ 0) (hb : b ≠ 0)
    (h : swap_input ⟨q, b⟩ ⟨1000000000⟩ dir amt = some (s', out)) :
    q * b / 1000000000 ≤
      s'.quote_asset_reserve * s'.base_asset_reserve / 1000000000 := by
  unfold swap_input at h
  split at h
  · exact Option.noConfusion h
  rename_i base hgip
  split at h
  · exact Option.noConfusion h
  rename_i s2 hupd
  simp only [Option.some.injEq, Prod.mk.injEq] at h
  obtain ⟨rfl, rfl⟩ := h
  cases dir with
  | AddToAmm =>
    unfold get_input_price_with_reserves at hgip
    dsimp only at hgip hupd ⊢
    split at hgip
    · exact Option.noConfusion hgip
    rename_i prod hprod
    split at hgip
    · exact Option.noConfusion hgip
    rename_i K hK
    split at hgip
    · exact Option.noConfusion hgip
    rename_i v hv
    split at hgip
    · exact Option.noConfusion hgip
    rename_i scaled hscaled
    split at hgip
    · exact Option.noConfusion hgip
    rename_i A hA
    obtain ⟨hprodeq, hprodbound⟩ := checked_mul_some hprod
    obtain ⟨hKeq, hD⟩ := checked_div_some hK
    obtain ⟨hveq, hvbound⟩ := checked_add_some hv
    obtain ⟨hscaledeq, hsbound⟩ := checked_mul_some hscaled
    obtain ⟨hAeq, hvne⟩ := checked_div_some hA
    have hAb : A ≤ b := by
      refine after_le prod 1000000000 v A q b (Nat.pos_of_ne_zero hq) hprodeq ?_ ?_
      · rw [hAeq, hscaledeq, hKeq]
      · omega
    rw [if_neg (Nat.not_lt.mpr hAb)] at hgip
    unfold update_reserve at hupd
    dsimp only at hupd
    split at hupd
    · exact Option.noConfusion hupd
    rename_i q2 hq2
    split at hupd
    · exact Option.noConfusion hupd
    rename_i b2 hb2
    simp only [Option.some.injEq] at hupd
    subst hupd
    dsimp only
    obtain ⟨hq2eq, -⟩ := checked_add_some hq2
    obtain ⟨hb2eq, houtle⟩ := checked_sub_some hb2
    have hKgoal : q * b / 1000000000 = K := by rw [hKeq, hprodeq]
    rw [hKgoal]
    have hq2v : q2 = v := by omega
    rw [hq2v]
    refine le_div_of_mul_le (by norm_num) ?_
    rw [show K * 1000000000 = scaled from hscaledeq.symm]
    split at hgip
    · exact Option.noConfusion hgip
    rename_i r hr
    obtain ⟨hreq, -, -⟩ := modulo_some hr
    split at hgip
    · -- inexact: out = (b - A) - 1
      obtain ⟨houteq, hone⟩ := checked_sub_some hgip
      refine bound_inexact (Nat.pos_of_ne_zero hvne) hAeq ?_
      omega
    · -- exact: remainder = 0, out = b - A
      rename_i hrz
      rw [ne_eq, not_not] at hrz
      simp only [Option.some.injEq] at hgip
      refine bound_exact ?_ hAeq ?_
      · rw [hscaledeq, ← hreq]; exact hrz
      · omega
  | RemoveFromAmm =>
    unfold get_input_price_with_reserves at hgip
    dsimp only at hgip hupd ⊢
    split at hgip
    · exact Option.noConfusion hgip
    rename_i prod hprod
    split at hgip
    · exact Option.noConfusion hgip
    rename_i K hK
    split at hgip
    · exact Option.noConfusion hgip
    rename_i v hv
    split at hgip
    · exact Option.noConfusion hgip
    rename_i scaled hscaled
    split at hgip
    · exact Option.noConfusion hgip
    rename_i A hA
    obtain ⟨hprodeq, hprodbound⟩ := checked_mul_some hprod
    obtain ⟨hKeq, hD⟩ := checked_div_some hK
    obtain ⟨hveq, hamtle⟩ := checked_sub_some hv
    obtain ⟨hscaledeq, hsbound⟩ := checked_mul_some hscaled
    obtain ⟨hAeq, hvne⟩ := checked_div_some hA
    unfold update_reserve at hupd
    dsimp only at hupd
    split at hupd
    · exact Option.noConfusion hupd
    rename_i b2 hb2
    split at hupd
    · exact Option.noConfusion hupd
    rename_i q2 hq2
    simp only [Option.some.injEq] at hupd
    subst hupd
    dsimp only
    obtain ⟨hb2eq, hbbound⟩ := checked_add_some hb2
    obtain ⟨hq2eq, -⟩ := checked_sub_some hq2
    have hKgoal : q * b / 1000000000 = K := by rw [hKeq, hprodeq]
    rw [hKgoal]
    have hq2v : q2 = v := by omega
    rw [hq2v]
    refine le_div_of_mul_le (by norm_num) ?_
    rw [show K * 1000000000 = scaled from hscaledeq.symm]
    split at hgip
    · exact Option.noConfusion hgip
    rename_i r hr
    obtain ⟨hreq, -, -⟩ := modulo_some hr
    split at hgip
    · -- inexact: out = bought + 1
      obtain ⟨houteq, -⟩ := checked_add_some hgip
      refine bound_inexact (Nat.pos_of_ne_zero hvne) hAeq ?_
      by_cases hAb : A > b
      · rw [if_pos hAb] at houteq; omega
      · rw [if_neg hAb] at houteq; omega
    · -- exact: out = bought
      rename_i hrz
      rw [ne_eq, not_not] at hrz
      simp only [Option.some.injEq] at hgip
      refine bound_exact ?_ hAeq ?_
      · rw [hscaledeq, ← hreq]; exact hrz
      · by_cases hAb : A > b
        · rw [if_pos hAb] at hgip; omega
        · rw [if_neg hAb] at hgip; omega

theorem swap_output_K_le (q b amt out : Nat) (dir : Direction) (s' : VammState)
    (hq : q ≠ 0) (hb : b ≠ 0)
    (h : swap_output ⟨q, b⟩ ⟨1000000000⟩ dir amt = some (s', out)) :
    q * b / 1000000000 ≤
      s'.quote_asset_reserve * s'.base_asset_reserve / 1000000000 := by
  cases dir with
  | AddToAmm =>
    unfold swap_output at h
    dsimp only at h
    split at h
    · exact Option.noConfusion h
    rename_i sold hgop
    split at h
    · exact Option.noConfusion h
    rename_i s2 hupd
    simp only [Option.some.injEq, Prod.mk.injEq] at h
    obtain ⟨rfl, rfl⟩ := h
    unfold get_output_price_with_reserves at hgop
    dsimp only at hgop hupd ⊢
    split at hgop
    · exact Option.noConfusion hgop
    rename_i prod hprod
    split at hgop
    · exact Option.noConfusion hgop
    rename_i K hK
    split at hgop
    · exact Option.noConfusion hgop
    rename_i v hv
    split at hgop
    · exact Option.noConfusion hgop
    rename_i scaled hscaled
    split at hgop
    · exact Option.noConfusion hgop
    rename_i A hA
    obtain ⟨hprodeq, hprodbound⟩ := checked_mul_some hprod
    obtain ⟨hKeq, hD⟩ := checked_div_some hK
    obtain ⟨hveq, hvbound⟩ := checked_add_some hv
    obtain ⟨hscaledeq, hsbound⟩ := checked_mul_some hscaled
    obtain ⟨hAeq, hvne⟩ := checked_div_some hA
    -- the computed quote_asset_after never exceeds the quote reserve here
    have hAq : A ≤ q := by
      refine after_le prod 1000000000 v A b q (Nat.pos_of_ne_zero hb)
        (hprodeq.trans (Nat.mul_comm q b)) ?_ ?_
      · rw [hAeq, hscaledeq, hKeq]
      · omega
    rw [if_neg (Nat.not_lt.mpr hAq)] at hgop
    -- update runs with the flipped direction (RemoveFromAmm)
    unfold update_reserve at hupd
    dsimp only at hupd
    split at hupd
    · exact Option.noConfusion hupd
    rename_i b2 hb2
    split at hupd
    · exact Option.noConfusion hupd
    rename_i q2 hq2
    simp only [Option.some.injEq] at hupd
    subst hupd
    dsimp only
    obtain ⟨hb2eq, hbbound⟩ := checked_add_some hb2
    obtain ⟨hq2eq, hsoldle⟩ := checked_sub_some hq2
    have hKgoal : q * b / 1000000000 = K := by rw [hKeq, hprodeq]
    rw [hKgoal]
    refine le_div_of_mul_le (by norm_num) ?_
    rw [show K * 1000000000 = scaled from hscaledeq.symm]
    rw [Nat.mul_comm q2 b2, show b2 = v by omega]
    split at hgop
    · exact Option.noConfusion hgop
    rename_i r hr
    obtain ⟨hreq, -, -⟩ := modulo_some hr
    split at hgop
    · -- inexact: sold = (q - A) - 1, so q2 = A + 1
      obtain ⟨hsoldeq, hone⟩ := checked_sub_some hgop
      refine bound_inexact (Nat.pos_of_ne_zero hvne) hAeq ?_
      omega
    · -- exact: sold = q - A, so q2 = A
      rename_i hrz
      rw [ne_eq, not_not] at hrz
      simp only [Option.some.injEq] at hgop
      refine bound_exact ?_ hAeq ?_
      · rw [hscaledeq, ← hreq]; exact hrz
      · omega
  | RemoveFromAmm =>
    unfold swap_output at h
    dsimp only at h
    split at h
    · exact Option.noConfusion h
    rename_i sold hgop
    split at h
    · exact Option.noConfusion h
    rename_i s2 hupd
    simp only [Option.some.injEq, Prod.mk.injEq] at h
    obtain ⟨rfl, rfl⟩ := h
    unfold get_output_price_with_reserves at hgop
    dsimp only at hgop hupd ⊢
    split at hgop
    · exact Option.noConfusion hgop
    rename_i prod hprod
    split at hgop
    · exact Option.noConfusion hgop
    rename_i K hK
    split at hgop
    · exact Option.noConfusion hgop
    rename_i v hv
    split at hgop
    · exact Option.noConfusion hgop
    rename_i scaled hscaled
    split at hgop
    · exact Option.noConfusion hgop
    rename_i A hA
    obtain ⟨hprodeq, hprodbound⟩ := checked_mul_some hprod
    obtain ⟨hKeq, hD⟩ := checked_div_some hK
    obtain ⟨hveq, hamtle⟩ := checked_sub_some hv
    obtain ⟨hscaledeq, hsbound⟩ := checked_mul_some hscaled
    obtain ⟨hAeq, hvne⟩ := checked_div_some hA
    -- update runs with the flipped direction (AddToAmm)
    unfold update_reserve at hupd
    dsimp only at hupd
    split at hupd
    · exact Option.noConfusion hupd
    rename_i q2 hq2
    split at hupd
    · exact Option.noConfusion hupd
    rename_i b2 hb2
    simp only [Option.some.injEq] at hupd
    subst hupd
    dsimp only
    obtain ⟨hq2eq, hqbound⟩ := checked_add_some hq2
    obtain ⟨hb2eq, -⟩ := checked_sub_some hb2
    have hKgoal : q * b / 1000000000 = K := by rw [hKeq, hprodeq]
    rw [hKgoal]
    refine le_div_of_mul_le (by norm_num) ?_
    rw [show K * 1000000000 = scaled from hscaledeq.symm]
    rw [Nat.mul_comm q2 b2, show b2 = v by omega]
    split at hgop
    · exact Option.noConfusion hgop
    rename_i r hr
    obtain ⟨hreq, -, -⟩ := modulo_some hr
    split at hgop
    · -- inexact: sold = bought + 1, so q2 ≥ A + 1
      obtain ⟨hsoldeq, -⟩ := checked_add_some hgop
      refine bound_inexact (Nat.pos_of_ne_zero hvne) hAeq ?_
      by_cases hAq : A > q
      · rw [if_pos hAq] at hsoldeq; omega
      · rw [if_neg hAq] at hsoldeq; omega
    · -- exact: sold = bought, so q2 ≥ A
      rename_i hrz
      rw [ne_eq, not_not] at hrz
      simp only [Option.some.injEq] at hgop
      refine bound_exact ?_ hAeq ?_
      · rw [hscaledeq, ← hreq]; exact hrz
      · by_cases hAq : A > q
        · rw [if_pos hAq] at hgop; omega
        · rw [if_neg hAq] at hgop; omega

/-! ## C1 -/

/-- C1: For every valid AMM state (nonzero reserves) **with
`config.decimals = 10^9`** (the value hardcoded in `modulo`; the original
claim over arbitrary nonzero decimals is refuted by
`c1_counterexample_other_decimals`), every trade that succeeds via
`swap_input` or `swap_output` leaves the decimal-normalized curve
invariant `quote_asset_reserve * base_asset_reserve / decimals`
non-decreasing: the rounding correction always biases in favor of the
reserve. -/
theorem c1_swap_invariant_K_nondecreasing
    (s s' : VammState) (cfg : VammConfig) (dir : Direction) (amt out : Nat)
    (hq : s.quote_asset_reserve ≠ 0) (hb : s.base_asset_reserve ≠ 0)
    (hdec : cfg.decimals = 1000000000)
    (h : swap_input s cfg dir amt = some (s', out) ∨
         swap_output s cfg dir amt = some (s', out)) :
    s.quote_asset_reserve * s.base_asset_reserve / cfg.decimals ≤
      s'.quote_asset_reserve * s'.base_asset_reserve / cfg.decimals := by
  obtain ⟨q, b⟩ := s
  obtain ⟨D⟩ := cfg
  dsimp only at hq hb hdec h ⊢
  subst hdec
  cases h with
  | inl h => exact swap_input_K_le q b amt out dir s' hq hb h
  | inr h => exact swap_output_K_le q b amt out dir s' hq hb h

/-- C1 witness: a concrete successful `swap_input` at decimals `10^9`
(reserves `10^9`/`10^9`, AddToAmm, amount `10^9` yields reserves
`2*10^9`/`5*10^8`) to which the invariant theorem applies. -/
theorem c1_swap_invariant_K_nondecreasing_witness :
    (1000000000 : Nat) * 1000000000 / 1000000000 ≤
      2000000000 * 500000000 / 1000000000 :=
  c1_swap_invariant_K_nondecreasing ⟨1000000000, 1000000000⟩
    ⟨2000000000, 500000000⟩ ⟨1000000000⟩ Direction.AddToAmm
    1000000000 500000000 (by decide) (by decide) rfl (Or.inl (by decide))

/-- C1 counterexample: with nonzero reserves (9, 1) and nonzero decimals 3
— a valid state per the claim as frozen — `swap_input` succeeds with
amount 1 in AddToAmm, yet the invariant strictly decreases from 3 to 0:
the hardcoded `10^9` scale in `modulo` reports the inexact division
`K*decimals/quote_after = 9/10` as exact, so the rounding correction is
skipped and the base reserve is drained to zero. -/
theorem c1_counterexample_other_decimals :
    swap_input ⟨9, 1⟩ ⟨3⟩ Direction.AddToAmm 1 = some (⟨10, 0⟩, 1) ∧
      (10 : Nat) * 0 / 3 < 9 * 1 / 3 :=
  ⟨by decide, by decide⟩

/-! ## C4 -/

/-- C4 (code-bug evidence): the zero-amount "short-circuit" in
`get_input_price_with_reserves` is a no-effect statement (`Uint128::zero();`
without `return`), so a quote amount of zero is *not* a no-op.  At
reserves (3, 2000000001) with decimals 10^9 and direction AddToAmm, the
amount-0 swap succeeds, returns base amount 1 (not 0) and mutates the
base reserve from 2000000001 to 2000000000: truncation in
`K = 3*2000000001/10^9 = 6` and `base_after = 6*10^9/3 = 2*10^9` shifts a
unit, and `modulo` reports the division exact, so no correction brings it
back. -/
theorem c4_zero_amount_swap_not_noop :
    swap_input ⟨3, 2000000001⟩ ⟨1000000000⟩ Direction.AddToAmm 0 =
        some (⟨3, 2000000000⟩, 1) ∧
      (1 : Nat) ≠ 0 ∧
      (⟨3, 2000000000⟩ : VammState) ≠ ⟨3, 2000000001⟩ :=
  ⟨by decide, by decide, by decide⟩

/-! ## C5 -/

/-- C5: every successful `swap_output(direction, base_asset_amount)`
updates the reserve pair using the *opposite* of the trade's nominal
direction: a nominal AddToAmm applies the RemoveFromAmm reserve update
(base reserve increases by the base amount, quote reserve decreases by
the computed quote amount) and vice versa. -/
theorem c5_swap_output_flips_update_direction
    (s s' : VammState) (cfg : VammConfig) (dir : Direction) (ba sold : Nat)
    (h : swap_output s cfg dir ba = some (s', sold)) :
    (dir = Direction.AddToAmm →
      s'.base_asset_reserve = s.base_asset_reserve + ba ∧
      s'.quote_asset_reserve + sold = s.quote_asset_reserve) ∧
    (dir = Direction.RemoveFromAmm →
      s'.base_asset_reserve + ba = s.base_asset_reserve ∧
      s'.quote_asset_reserve = s.quote_asset_reserve + sold) := by
  cases dir with
  | AddToAmm =>
    refine ⟨fun _ => ?_, fun hcon => Direction.noConfusion hcon⟩
    unfold swap_output at h
    dsimp only at h
    split at h
    · exact Option.noConfusion h
    rename_i sold0 hgop
    split at h
    · exact Option.noConfusion h
    rename_i s2 hupd
    simp only [Option.some.injEq, Prod.mk.injEq] at h
    obtain ⟨rfl, rfl⟩ := h
    unfold update_reserve at hupd
    dsimp only at hupd
    split at hupd
    · exact Option.noConfusion hupd
    rename_i b2 hb2
    split at hupd
    · exact Option.noConfusion hupd
    rename_i q2 hq2
    simp only [Option.some.injEq] at hupd
    subst hupd
    obtain ⟨hb2eq, -⟩ := checked_add_some hb2
    obtain ⟨hq2eq, hle⟩ := checked_sub_some hq2
    dsimp only
    omega
  | RemoveFromAmm =>
    refine ⟨fun hcon => Direction.noConfusion hcon, fun _ => ?_⟩
    unfold swap_output at h
    dsimp only at h
    split at h
    · exact Option.noConfusion h
    rename_i sold0 hgop
    split at h
    · exact Option.noConfusion h
    rename_i s2 hupd
    simp only [Option.some.injEq, Prod.mk.injEq] at h
    obtain ⟨rfl, rfl⟩ := h
    unfold update_reserve at hupd
    dsimp only at hupd
    split at hupd
    · exact Option.noConfusion hupd
    rename_i q2 hq2
    split at hupd
    · exact Option.noConfusion hupd
    rename_i b2 hb2
    simp only [Option.some.injEq] at hupd
    subst hupd
    obtain ⟨hq2eq, -⟩ := checked_add_some hq2
    obtain ⟨hb2eq, hle⟩ := checked_sub_some hb2
    dsimp only
    omega

/-- C5 witness: the concrete AddToAmm `swap_output` of base amount `10^9`
at reserves `(10^9, 10^9)` (quote sold `5*10^8`, reserves become
`(5*10^8, 2*10^9)`) satisfies the flipped-update conclusion. -/
theorem c5_swap_output_flips_update_direction_witness :
    (Direction.AddToAmm = Direction.AddToAmm →
      (2000000000 : Nat) = 1000000000 + 1000000000 ∧
      (500000000 : Nat) + 500000000 = 1000000000) ∧
    (Direction.AddToAmm = Direction.RemoveFromAmm →
      (2000000000 : Nat) + 1000000000 = 1000000000 ∧
      (500000000 : Nat) = 1000000000 + 500000000) :=
  c5_swap_output_flips_update_direction ⟨1000000000, 1000000000⟩
    ⟨500000000, 2000000000⟩ ⟨1000000000⟩ Direction.AddToAmm
    1000000000 500000000 (by decide)

/-! ## C9 -/

/-- C9: the rounding-correction test in both pricing functions is
`modulo invariant_k divisor ≠ 0`, and `modulo` computes the remainder of
`K * 10^9` by the divisor with the `10^9` scale hardcoded independently
of `config.decimals` (first conjunct).  When `decimals = 10^9` this test
coincides with inexactness of the principal division
`K * decimals / divisor` (second conjunct).  For every other nonzero
decimals value `D` there is a reserve state — quote reserve `D`, base
reserve 1, so `invariant_k = 1` — and a quote amount whose AddToAmm
divisor `q + amt` makes the test disagree with the true exactness of
`K * D / divisor`: the correction fires on an exact division or is
skipped on an inexact one (third conjunct). -/
theorem c9_modulo_hardcoded_precision (D : Nat) (hD : 0 < D) :
    (∀ K v, v ≠ 0 → K * 1000000000 < UINT128_BOUND →
        modulo K v = some (K * 1000000000 % v)) ∧
    (D = 1000000000 → ∀ K v,
        (K * 1000000000 % v ≠ 0 ↔ K * D % v ≠ 0)) ∧
    (D ≠ 1000000000 → ∃ q b amt, q ≠ 0 ∧ b ≠ 0 ∧ q + amt ≠ 0 ∧
        q * b / D * 1000000000 < UINT128_BOUND ∧
        ¬((q * b / D * 1000000000 % (q + amt) = 0) ↔
          (q * b / D * D % (q + amt) = 0))) := by
  refine ⟨?_, ?_, ?_⟩
  · intro K v hv hb
    unfold modulo
    rw [show checked_mul K 1000000000 = some (K * 1000000000) from by
      unfold checked_mul; rw [if_pos hb]]
    dsimp only
    rw [if_neg hv]
    simp only [Option.some.injEq]
    have := Nat.div_add_mod (K * 1000000000) v
    omega
  · intro hDval K v
    rw [hDval]
  · intro hne
    have hK : D * 1 / D = 1 := by rw [Nat.mul_one, Nat.div_self hD]
    by_cases hdvd : D ∣ 1000000000
    · have hDle : D ≤ 1000000000 := Nat.le_of_dvd (by norm_num) hdvd
      have hDlt : D < 1000000000 := lt_of_le_of_ne hDle hne
      refine ⟨D, 1, 1000000000 - D, Nat.pos_iff_ne_zero.mp hD, one_ne_zero,
        ?_, ?_, ?_⟩
      · omega
      · rw [hK]; norm_num [UINT128_BOUND]
      · rw [hK, show D + (1000000000 - D) = 1000000000 by omega]
        intro hiff
        have h1 : (1 : Nat) * 1000000000 % 1000000000 = 0 := by norm_num
        have h2 := hiff.mp h1
        rw [Nat.one_mul, Nat.mod_eq_of_lt hDlt] at h2
        exact Nat.pos_iff_ne_zero.mp hD h2
    · refine ⟨D, 1, 0, Nat.pos_iff_ne_zero.mp hD, one_ne_zero, ?_, ?_, ?_⟩
      · omega
      · rw [hK]; norm_num [UINT128_BOUND]
      · rw [hK, Nat.add_zero]
        intro hiff
        have h2 : (1 : Nat) * D % D = 0 := by
          rw [Nat.one_mul, Nat.mod_self]
        have h1 := hiff.mpr h2
        rw [Nat.one_mul] at h1
        exact hdvd (Nat.dvd_of_mod_eq_zero h1)

/-- C9 witness: the hardcoded-precision theorem instantiated at the
nonzero decimals value 2 (which divides `10^9`, so the mismatch state has
divisor `10^9`). -/
theorem c9_modulo_hardcoded_precision_witness :
    (∀ K v, v ≠ 0 → K * 1000000000 < UINT128_BOUND →
        modulo K v = some (K * 1000000000 % v)) ∧
    ((2 : Nat) = 1000000000 → ∀ K v,
        (K * 1000000000 % v ≠ 0 ↔ K * 2 % v ≠ 0)) ∧
    ((2 : Nat) ≠ 1000000000 → ∃ q b amt, q ≠ 0 ∧ b ≠ 0 ∧ q + amt ≠ 0 ∧
        q * b / 2 * 1000000000 < UINT128_BOUND ∧
        ¬((q * b / 2 * 1000000000 % (q + amt) = 0) ↔
          (q * b / 2 * 2 % (q + amt) = 0))) :=
  c9_modulo_hardcoded_precision 2 (by decide)

/-! ## Engine helper lemmas -/

theorem side_direction_roundtrip (d : Direction) :
    side_to_direction (direction_to_side d) = d := by
  cases d <;> rfl

theorem read_store_position (st : EngineState) (p : Position) :
    read_position (store_position st p) p.vamm p.trader = some p := by
  unfold read_position store_position
  dsimp only
  rw [List.find?_cons_of_pos]
  · rfl
  · simp

/-! ## C7 -/

/-- C7: closing a position for a (market, trader) pair with no stored
position fails — the source `unwrap`s the absent position, a panic that
aborts the whole transaction, so the position ledger, the pending-swap
slot and the reserves are all left unchanged (the failure path returns no
successor state). -/
theorem c7_close_missing_position_fails
    (st : EngineState) (vamm trader : String) (i : Nat)
    (hp : read_position st vamm trader = none) :
    close_position st vamm trader i =
      Except.error "panicked: unwrap on a None value" := by
  unfold close_position
  rw [hp]

/-- C7 witness: closing on the empty ledger fails. -/
theorem c7_close_missing_position_fails_witness :
    close_position ⟨[], none⟩ "vamm" "trader" 4 =
      Except.error "panicked: unwrap on a None value" :=
  c7_close_missing_position_fails ⟨[], none⟩ "vamm" "trader" 4 rfl

/-! ## C8 -/

/-- C8: `close_position` never writes a pending-swap record before
issuing its SwapOutput sub-call (the `tmp_store_swap` line is commented
out), so the pending slot after the call equals the slot before it;
consequently the close resumption `finalize_close_position` fails with
"no temporary swap stored" when the slot was empty, and when a stale
`Swap` from an earlier `open_position` is still in the slot, the close
resumption succeeds and clears that unrelated record. -/
theorem c8_close_never_stores_pending
    (st st' : EngineState) (vamm trader : String) (i : Nat) (msg : EngineMsg)
    (h : close_position st vamm trader i = Except.ok (st', msg)) :
    st'.tmpSwap = st.tmpSwap ∧
    (st.tmpSwap = none →
      finalize_close_position st' = Except.error "no temporary swap stored") ∧
    (∀ s, st.tmpSwap = some s →
      finalize_close_position st' = Except.ok (remove_tmp_swap st')) := by
  unfold close_position at h
  split at h
  · exact Except.noConfusion h
  rename_i pos hpos
  simp only [Except.ok.injEq, Prod.mk.injEq] at h
  obtain ⟨rfl, -⟩ := h
  refine ⟨rfl, ?_, ?_⟩
  · intro hn
    unfold finalize_close_position read_tmp_swap
    rw [hn]
  · intro s hs
    unfold finalize_close_position read_tmp_swap
    rw [hs]

/-- C8 witness: closing a stored position while a stale pending swap from
an earlier open sits in the slot: the slot survives `close_position`, and
the close resumption then succeeds by consuming the unrelated record. -/
theorem c8_close_never_stores_pending_witness :
    (some (⟨"v", "t", Side.BUY, 5, 2000000000, 10⟩ : Swap) =
      some ⟨"v", "t", Side.BUY, 5, 2000000000, 10⟩) ∧
    (some (⟨"v", "t", Side.BUY, 5, 2000000000, 10⟩ : Swap) = none →
      finalize_close_position
        ⟨[(("v", "t"), ⟨"v", "t", Direction.AddToAmm, 10, 50, 100, 0, 0, 0⟩)],
          some ⟨"v", "t", Side.BUY, 5, 2000000000, 10⟩⟩ =
        Except.error "no temporary swap stored") ∧
    (∀ s, some (⟨"v", "t", Side.BUY, 5, 2000000000, 10⟩ : Swap) = some s →
      finalize_close_position
        ⟨[(("v", "t"), ⟨"v", "t", Direction.AddToAmm, 10, 50, 100, 0, 0, 0⟩)],
          some ⟨"v", "t", Side.BUY, 5, 2000000000, 10⟩⟩ =
        Except.ok (remove_tmp_swap
          ⟨[(("v", "t"), ⟨"v", "t", Direction.AddToAmm, 10, 50, 100, 0, 0, 0⟩)],
            some ⟨"v", "t", Side.BUY, 5, 2000000000, 10⟩⟩)) :=
  c8_close_never_stores_pending
    ⟨[(("v", "t"), ⟨"v", "t", Direction.AddToAmm, 10, 50, 100, 0, 0, 0⟩)],
      some ⟨"v", "t", Side.BUY, 5, 2000000000, 10⟩⟩
    ⟨[(("v", "t"), ⟨"v", "t", Direction.AddToAmm, 10, 50, 100, 0, 0, 0⟩)],
      some ⟨"v", "t", Side.BUY, 5, 2000000000, 10⟩⟩
    "v" "t" 4 (EngineMsg.swapOutput "v" Direction.RemoveFromAmm 10 4) rfl

/-! ## C3 -/

/-- C3: when an `open_position` request opposes the stored position's
direction, the routing is decided by comparing `position.notional` with
the computed `open_notional = quote_asset_amount * leverage / decimals`:
strictly greater routes to an input-priced swap tagged with the decrease
continuation id (never the reverse id), and the boundary case of equality
routes to an output-priced swap sized to the full current position size,
tagged with the reverse continuation id. -/
theorem c3_opposing_routing
    (cfg : EngineConfig) (st st' : EngineState) (bt : Nat)
    (vamm trader : String) (side : Side) (qa lev : Nat)
    (p : Position) (msg : EngineMsg)
    (hp : read_position st vamm trader = some p)
    (hopp : ¬((p.direction = Direction.AddToAmm ∧ side = Side.BUY) ∨
              (p.direction = Direction.RemoveFromAmm ∧ side = Side.SELL)))
    (h : open_position cfg st bt vamm trader side qa lev = Except.ok (st', msg)) :
    (p.notional > qa * lev / cfg.decimals →
      msg.replyId = SWAP_DECREASE_REPLY_ID ∧
      msg.replyId ≠ SWAP_REVERSE_REPLY_ID) ∧
    (p.notional = qa * lev / cfg.decimals →
      msg = EngineMsg.swapOutput vamm p.direction p.size
        SWAP_REVERSE_REPLY_ID) := by
  unfold open_position at h
  split at h
  · exact Except.noConfusion h
  rename_i scaled hscaled
  split at h
  · exact Except.noConfusion h
  rename_i opn hon
  obtain ⟨hscaledeq, -⟩ := checked_mul_some hscaled
  obtain ⟨honeq, hDne⟩ := checked_div_some hon
  have honval : opn = qa * lev / cfg.decimals := by rw [honeq, hscaledeq]
  dsimp only at h
  rw [show get_position bt st vamm trader side = p from by
    unfold get_position; rw [hp]] at h
  rw [if_neg hopp] at h
  by_cases hgt : p.notional > opn
  · rw [if_pos hgt] at h
    split at h
    · rename_i hsub
      unfold checked_sub at hsub
      rw [if_pos (Nat.le_of_lt hgt)] at hsub
      exact Option.noConfusion hsub
    rename_i red hred
    simp only [Except.ok.injEq, Prod.mk.injEq] at h
    obtain ⟨-, hmsg⟩ := h
    subst hmsg
    refine ⟨fun _ => ⟨rfl, ?_⟩, fun heq => ?_⟩
    · show SWAP_DECREASE_REPLY_ID ≠ SWAP_REVERSE_REPLY_ID
      decide
    · rw [honval] at hgt
      omega
  · rw [if_neg hgt] at h
    simp only [Except.ok.injEq, Prod.mk.injEq] at h
    obtain ⟨-, hmsg⟩ := h
    subst hmsg
    refine ⟨fun hgt2 => ?_, fun _ => ?_⟩
    · rw [honval] at hgt
      omega
    · rw [side_direction_roundtrip]

/-- C3 witness: a stored AddToAmm position with notional 100 opposed by a
SELL of open notional 40 routes to the decrease id; the boundary
hypothesis is vacuous there. -/
theorem c3_opposing_routing_witness :
    ((100 : Nat) > 40 →
      EngineMsg.replyId (EngineMsg.swapInput "v" Direction.RemoveFromAmm 40 2)
          = SWAP_DECREASE_REPLY_ID ∧
      EngineMsg.replyId (EngineMsg.swapInput "v" Direction.RemoveFromAmm 40 2)
          ≠ SWAP_REVERSE_REPLY_ID) ∧
    ((100 : Nat) = 40 →
      EngineMsg.swapInput "v" Direction.RemoveFromAmm 40 2 =
        EngineMsg.swapOutput "v" Direction.AddToAmm 10 SWAP_REVERSE_REPLY_ID) :=
  c3_opposing_routing ⟨"o", "coll", 1000000000, 0, 0, 0⟩
    ⟨[(("v", "t"), ⟨"v", "t", Direction.AddToAmm, 10, 50, 100, 0, 0, 0⟩)], none⟩
    ⟨[(("v", "t"), ⟨"v", "t", Direction.AddToAmm, 10, 50, 100, 0, 0, 0⟩)],
      some ⟨"v", "t", Side.SELL, 40, 1000000000, 40⟩⟩
    0 "v" "t" Side.SELL 40 1000000000
    ⟨"v", "t", Direction.AddToAmm, 10, 50, 100, 0, 0, 0⟩
    (EngineMsg.swapInput "v" Direction.RemoveFromAmm 40 2)
    rfl (by decide) rfl

/-! ## C6 -/

/-- C6 counterexample: stored position (direction AddToAmm, notional 100)
opposed by a SELL with open notional 40: `open_position` succeeds and
issues the decrease-tagged swap, but the stored position still carries
notional 100 — not the speculatively reduced 60 the claim asserts — since
the subtraction is applied to a local copy that is never persisted. -/
theorem c6_counterexample_decrement_not_stored :
    open_position ⟨"o", "coll", 1000000000, 0, 0, 0⟩
        ⟨[(("v", "t"), ⟨"v", "t", Direction.AddToAmm, 10, 50, 100, 0, 0, 0⟩)],
          none⟩
        0 "v" "t" Side.SELL 40 1000000000 =
      Except.ok
        (⟨[(("v", "t"), ⟨"v", "t", Direction.AddToAmm, 10, 50, 100, 0, 0, 0⟩)],
            some ⟨"v", "t", Side.SELL, 40, 1000000000, 40⟩⟩,
          EngineMsg.swapInput "v" Direction.RemoveFromAmm 40 2) ∧
    (read_position
        ⟨[(("v", "t"), ⟨"v", "t", Direction.AddToAmm, 10, 50, 100, 0, 0, 0⟩)],
          some ⟨"v", "t", Side.SELL, 40, 1000000000, 40⟩⟩
        "v" "t").map Position.notional = some 100 ∧
    (100 : Nat) ≠ 100 - 40 :=
  ⟨by rfl, by rfl, by decide⟩

/-- C6 as amended: on the opposing path with
`position.notional > open_notional` the subtraction
`position.notional - open_notional` is computed only on the in-memory
copy; `open_position` never persists it, so the position ledger — and in
particular the stored notional for the (market, trader) key — is
unchanged when the decrease-tagged call is issued. -/
theorem c6_decrement_never_persisted
    (cfg : EngineConfig) (st st' : EngineState) (bt : Nat)
    (vamm trader : String) (side : Side) (qa lev : Nat)
    (p : Position) (msg : EngineMsg)
    (hp : read_position st vamm trader = some p)
    (hopp : ¬((p.direction = Direction.AddToAmm ∧ side = Side.BUY) ∨
              (p.direction = Direction.RemoveFromAmm ∧ side = Side.SELL)))
    (hgt : p.notional > qa * lev / cfg.decimals)
    (h : open_position cfg st bt vamm trader side qa lev = Except.ok (st', msg)) :
    st'.positions = st.positions ∧
    read_position st' vamm trader = some p := by
  unfold open_position at h
  split at h
  · exact Except.noConfusion h
  rename_i scaled hscaled
  split at h
  · exact Except.noConfusion h
  rename_i opn hon
  obtain ⟨hscaledeq, -⟩ := checked_mul_some hscaled
  obtain ⟨honeq, hDne⟩ := checked_div_some hon
  have honval : opn = qa * lev / cfg.decimals := by rw [honeq, hscaledeq]
  rw [← honval] at hgt
  dsimp only at h
  rw [show get_position bt st vamm trader side = p from by
    unfold get_position; rw [hp]] at h
  rw [if_neg hopp, if_pos hgt] at h
  split at h
  · rename_i hsub
    unfold checked_sub at hsub
    rw [if_pos (Nat.le_of_lt hgt)] at hsub
    exact Option.noConfusion hsub
  rename_i red hred
  simp only [Except.ok.injEq, Prod.mk.injEq] at h
  obtain ⟨hst, -⟩ := h
  subst hst
  exact ⟨rfl, hp⟩

/-- C6 witness: the decrease scenario of the counterexample, showing the
ledger (and the stored notional 100) unchanged. -/
theorem c6_decrement_never_persisted_witness :
    ([(("v", "t"),
        (⟨"v", "t", Direction.AddToAmm, 10, 50, 100, 0, 0, 0⟩ : Position))] =
      [(("v", "t"),
        (⟨"v", "t", Direction.AddToAmm, 10, 50, 100, 0, 0, 0⟩ : Position))]) ∧
    read_position
        ⟨[(("v", "t"), ⟨"v", "t", Direction.AddToAmm, 10, 50, 100, 0, 0, 0⟩)],
          some ⟨"v", "t", Side.SELL, 40, 1000000000, 40⟩⟩
        "v" "t" =
      some ⟨"v", "t", Direction.AddToAmm, 10, 50, 100, 0, 0, 0⟩ :=
  c6_decrement_never_persisted ⟨"o", "coll", 1000000000, 0, 0, 0⟩
    ⟨[(("v", "t"), ⟨"v", "t", Direction.AddToAmm, 10, 50, 100, 0, 0, 0⟩)], none⟩
    ⟨[(("v", "t"), ⟨"v", "t", Direction.AddToAmm, 10, 50, 100, 0, 0, 0⟩)],
      some ⟨"v", "t", Side.SELL, 40, 1000000000, 40⟩⟩
    0 "v" "t" Side.SELL 40 1000000000
    ⟨"v", "t", Direction.AddToAmm, 10, 50, 100, 0, 0, 0⟩
    (EngineMsg.swapInput "v" Direction.RemoveFromAmm 40 2)
    rfl (by decide) (by decide) rfl

/-! ## C2 -/

/-- C2 counterexample: a resumption with the increase continuation id
while a PendingSwap is present (posted margin 5, open notional 10, swap
output 3) updates and persists the position as the claim describes, but —
contrary to the claim — the PendingSwap record is *not* cleared (the
source never calls `remove_tmp_swap` on this path) and a cw20
TransferFrom collateral sub-call *is* issued (the transfer is not
disabled in this source). -/
theorem c2_counterexample_slot_kept_transfer_issued :
    increase_position_reply ⟨"o", "coll", 1000000000, 0, 0, 0⟩
        ⟨[], some ⟨"v", "t", Side.BUY, 5, 2000000000, 10⟩⟩ 7 "eng" 3 =
      Except.ok
        (⟨[(("v", "t"), ⟨"v", "t", Direction.AddToAmm, 3, 5, 10, 0, 0, 7⟩)],
            some ⟨"v", "t", Side.BUY, 5, 2000000000, 10⟩⟩,
          EngineMsg.transferFrom "coll" "t" "eng" 5 0) ∧
    some (⟨"v", "t", Side.BUY, 5, 2000000000, 10⟩ : Swap) ≠ none :=
  ⟨by rfl, by decide⟩

/-- C2 as amended: on every successful increase resumption with a
PendingSwap present, the position for the pending key is updated by
adding the swap output to `size`, the posted margin to `margin` and the
pending `open_notional` to `notional`, with `direction` set from the
pending side, and is persisted; but the PendingSwap record is *left in
place* (not cleared), and a cw20 TransferFrom sub-call for the updated
cumulative `position.margin` *is* issued. -/
theorem c2_increase_reply_behavior
    (cfg : EngineConfig) (st st' : EngineState) (bt : Nat) (ca : String)
    (output : Nat) (swap : Swap) (p : Position) (msg : EngineMsg)
    (hsw : st.tmpSwap = some swap)
    (hp : get_position bt st swap.vamm swap.trader swap.side = p)
    (h : increase_position_reply cfg st bt ca output = Except.ok (st', msg)) :
    read_position st' p.vamm p.trader =
      some { p with size := p.size + output,
                    margin := p.margin + swap.quote_asset_amount,
                    notional := p.notional + swap.open_notional,
                    direction := side_to_direction swap.side } ∧
    st'.tmpSwap = some swap ∧
    msg = EngineMsg.transferFrom cfg.eligible_collateral swap.trader ca
      (p.margin + swap.quote_asset_amount) 0 := by
  unfold increase_position_reply read_tmp_swap at h
  rw [hsw] at h
  dsimp only at h
  rw [hp] at h
  split at h
  · exact Except.noConfusion h
  rename_i sz hsz
  split at h
  · exact Except.noConfusion h
  rename_i mg hmg
  split at h
  · exact Except.noConfusion h
  rename_i nt hnt
  simp only [Except.ok.injEq, Prod.mk.injEq] at h
  obtain ⟨hst, hmsg⟩ := h
  obtain ⟨hszeq, -⟩ := checked_add_some hsz
  obtain ⟨hmgeq, -⟩ := checked_add_some hmg
  obtain ⟨hnteq, -⟩ := checked_add_some hnt
  refine ⟨?_, ?_, ?_⟩
  · rw [← hst, hszeq, hmgeq, hnteq]
    exact read_store_position st
      { p with size := p.size + output,
               margin := p.margin + swap.quote_asset_amount,
               notional := p.notional + swap.open_notional,
               direction := side_to_direction swap.side }
  · rw [← hst]
    exact hsw
  · rw [← hmsg, hmgeq]

/-- C2 witness: the concrete increase resumption of the counterexample
(fresh position synthesized at block time 7, output 3, posted margin 5,
open notional 10). -/
theorem c2_increase_reply_behavior_witness :
    read_position
        ⟨[(("v", "t"), ⟨"v", "t", Direction.AddToAmm, 3, 5, 10, 0, 0, 7⟩)],
          some ⟨"v", "t", Side.BUY, 5, 2000000000, 10⟩⟩ "v" "t" =
      some ⟨"v", "t", Direction.AddToAmm, 3, 5, 10, 0, 0, 7⟩ ∧
    (some (⟨"v", "t", Side.BUY, 5, 2000000000, 10⟩ : Swap) =
      some ⟨"v", "t", Side.BUY, 5, 2000000000, 10⟩) ∧
    EngineMsg.transferFrom "coll" "t" "eng" 5 0 =
      EngineMsg.transferFrom "coll" "t" "eng" 5 0 :=
  c2_increase_reply_behavior ⟨"o", "coll", 1000000000, 0, 0, 0⟩
    ⟨[], some ⟨"v", "t", Side.BUY, 5, 2000000000, 10⟩⟩
    ⟨[(("v", "t"), ⟨"v", "t", Direction.AddToAmm, 3, 5, 10, 0, 0, 7⟩)],
      some ⟨"v", "t", Side.BUY, 5, 2000000000, 10⟩⟩
    7 "eng" 3 ⟨"v", "t", Side.BUY, 5, 2000000000, 10⟩
    ⟨"v", "t", Direction.AddToAmm, 0, 0, 0, 0, 0, 7⟩
    (EngineMsg.transferFrom "coll" "t" "eng" 5 0)
    rfl rfl rfl

/-! ## C10 -/

/-- C10: the collateral sub-call issued by a successful increase
resumption is a cw20 TransferFrom for the position's full cumulative
margin — the stored margin plus the pending swap's posted
`quote_asset_amount` — not merely the newly posted amount; so whenever
the re-derived position already carries margin (as after an earlier
increase), the requested transfer strictly exceeds the newly posted
margin, double-requesting collateral already posted. -/
theorem c10_transfer_requests_cumulative_margin
    (cfg : EngineConfig) (st st' : EngineState) (bt : Nat) (ca : String)
    (output : Nat) (swap : Swap) (p : Position) (msg : EngineMsg)
    (hsw : st.tmpSwap = some swap)
    (hp : get_position bt st swap.vamm swap.trader swap.side = p)
    (h : increase_position_reply cfg st bt ca output = Except.ok (st', msg)) :
    msg = EngineMsg.transferFrom cfg.eligible_collateral swap.trader ca
      (p.margin + swap.quote_asset_amount) 0 ∧
    (0 < p.margin →
      swap.quote_asset_amount < p.margin + swap.quote_asset_amount) := by
  unfold increase_position_reply read_tmp_swap at h
  rw [hsw] at h
  dsimp only at h
  rw [hp] at h
  split at h
  · exact Except.noConfusion h
  rename_i sz hsz
  split at h
  · exact Except.noConfusion h
  rename_i mg hmg
  split at h
  · exact Except.noConfusion h
  rename_i nt hnt
  simp only [Except.ok.injEq, Prod.mk.injEq] at h
  obtain ⟨-, hmsg⟩ := h
  obtain ⟨hmgeq, -⟩ := checked_add_some hmg
  refine ⟨by rw [← hmsg, hmgeq], fun hpos => ?_⟩
  omega

/-- C10 witness: a second increase on a position that already carries
margin 50 (posted amount 5) requests a TransferFrom of the cumulative 55,
strictly more than the 5 newly posted. -/
theorem c10_transfer_requests_cumulative_margin_witness :
    EngineMsg.transferFrom "coll" "t" "eng" 55 0 =
      EngineMsg.transferFrom "coll" "t" "eng" (50 + 5) 0 ∧
    ((0 : Nat) < 50 → (5 : Nat) < 50 + 5) :=
  c10_transfer_requests_cumulative_margin
    ⟨"o", "coll", 1000000000, 0, 0, 0⟩
    ⟨[(("v", "t"), ⟨"v", "t", Direction.AddToAmm, 10, 50, 100, 0, 0, 0⟩)],
      some ⟨"v", "t", Side.BUY, 5, 2000000000, 10⟩⟩
    ⟨[(("v", "t"), ⟨"v", "t", Direction.AddToAmm, 13, 55, 110, 0, 0, 0⟩),
      (("v", "t"), ⟨"v", "t", Direction.AddToAmm, 10, 50, 100, 0, 0, 0⟩)],
      some ⟨"v", "t", Side.BUY, 5, 2000000000, 10⟩⟩
    7 "eng" 3 ⟨"v", "t", Side.BUY, 5, 2000000000, 10⟩
    ⟨"v", "t", Direction.AddToAmm, 10, 50, 100, 0, 0, 0⟩
    (EngineMsg.transferFrom "coll" "t" "eng" 55 0)
    rfl rfl rfl
